import Mathlib

/-!
# Form-X string-formatting core, shallowly embedded

Shallow embedding of the string-transformation pipeline of `src/main.py`
(class `StringFormatterApp`): separator auto-detection, tokenization,
content counting, the output formatters and the main `process_string`
driver.  Strings are modelled as `List Char`; the tkinter option
variables (`separator_var`, `format_type`, `dict_key_type`, the
`user_prefix` entry) become explicit parameters; the messagebox warnings
that abort processing become an error result.
-/

namespace FormX

/-- A Python string, as a list of characters. -/
abbrev Str := List Char

/-- The ASCII characters matched by Python's `\s` and skipped by
`str.split()` / `str.strip()`. -/
def isSpaceChar (c : Char) : Bool :=
  c = ' ' || c = '\t' || c = '\n' || c = '\r' || c = '\x0b' || c = '\x0c'

/-- ASCII letters and digits, as matched by `[a-zA-Z0-9]`. -/
def isAlnumChar (c : Char) : Bool :=
  ('a' ≤ c && c ≤ 'z') || ('A' ≤ c && c ≤ 'Z') || ('0' ≤ c && c ≤ '9')

/-- Model of the first regex substitution in the source: replace every
(left-to-right, non-overlapping) occurrence of the two-character marker
`/n` by a single space. -/
def replaceSlashN : Str → Str
  | [] => []
  | [c] => [c]
  | c :: d :: rest =>
    if c = '/' ∧ d = 'n' then ' ' :: replaceSlashN rest
    else c :: replaceSlashN (d :: rest)

/-- Whether the two-character marker `/n` occurs in the string. -/
def hasSlashN : Str → Bool
  | c :: d :: rest => (c = '/' && d = 'n') || hasSlashN (d :: rest)
  | _ => false

/-- Model of the second regex substitution in the source: collapse every
maximal run of whitespace into a single space. -/
def collapseWs : Str → Str
  | [] => []
  | [c] => if isSpaceChar c then [' '] else [c]
  | c :: d :: rest =>
    if isSpaceChar c then
      if isSpaceChar d then collapseWs (d :: rest)
      else ' ' :: collapseWs (d :: rest)
    else c :: collapseWs (d :: rest)

/-- Model of Python `str.strip` with no argument: drop leading and
trailing whitespace. -/
def stripChars (l : Str) : Str :=
  ((l.dropWhile isSpaceChar).reverse.dropWhile isSpaceChar).reverse

/-- Helper for `str.split()` with no argument: scan the string keeping the
current word in `acc` (reversed); whitespace ends a word, empty words are
never emitted. -/
def splitWsAux : Str → Str → List Str
  | [], acc => if acc = [] then [] else [acc.reverse]
  | c :: rest, acc =>
    if isSpaceChar c then
      if acc = [] then splitWsAux rest []
      else acc.reverse :: splitWsAux rest []
    else splitWsAux rest (c :: acc)

/-- Model of Python `str.split` with no argument: split on runs of
whitespace, discarding empty pieces. -/
def splitWs (l : Str) : List Str := splitWsAux l []

/-- Helper for `str.split(sep)` with a one-character separator. -/
def splitOnCharAux (sep : Char) : Str → Str → List Str
  | [], acc => [acc.reverse]
  | c :: rest, acc =>
    if c = sep then acc.reverse :: splitOnCharAux sep rest []
    else splitOnCharAux sep rest (c :: acc)

/-- Model of Python `str.split` at a one-character separator: empty
pieces are kept (the empty string splits into one empty piece, and two
adjacent separators enclose an empty piece). -/
def splitOnChar (sep : Char) (l : Str) : List Str := splitOnCharAux sep l []

/-- Model of Python `str.join`. -/
def joinSep (sep : Str) : List Str → Str
  | [] => []
  | [x] => x
  | x :: y :: rest => x ++ sep ++ joinSep sep (y :: rest)

/-- The `separator_var` radio selection. -/
inductive SeparatorChoice
  | auto
  | space
  | comma
  | newline
deriving DecidableEq

/-- The `format_type` radio selection. -/
inductive FormatType
  | none
  | list
  | tuple
  | dict
deriving DecidableEq

/-- The `dict_key_type` radio selection. -/
inductive DictKeyStrategy
  | none
  | index
  | auto
  | first_word
  | user_defined
deriving DecidableEq

/-- The warnings with which `process_string` refuses to produce output. -/
inductive ProcessError
  | EmptyInput
  | NoItemsFound
deriving DecidableEq

/-- Embedding of `auto_detect_separator` from `src/main.py`.  The `space_count` computed
there is never read by the decision, so it is omitted. -/
def auto_detect_separator (input_string : Str) : Char :=
  if input_string = [] then ' '
  else
    let comma_count := input_string.count ','
    let newline_count := input_string.count '\n'
    if 0 < comma_count ∧ newline_count ≤ comma_count then ','
    else if 0 < newline_count then '\n'
    else ' '

/-- The normalization performed at the start of `clean_and_split_string`:
remove `/n` markers, collapse whitespace, strip. -/
def cleanString (input_string : Str) : Str :=
  stripChars (collapseWs (replaceSlashN input_string))

/-- Embedding of `clean_and_split_string` from `src/main.py`.  The source's
`else`-fallback computes the same expression as the manual branch and is
unreachable for the closed enum. -/
def clean_and_split_string (sep_type : SeparatorChoice) (input_string : Str) :
    List Str :=
  let cleaned := cleanString input_string
  match sep_type with
  | .auto =>
    let separator := auto_detect_separator cleaned
    ((splitOnChar separator cleaned).map stripChars).filter (fun x => !x.isEmpty)
  | .space | .comma | .newline =>
    ((splitWs cleaned).map stripChars).filter (fun x => !x.isEmpty)

/-- Embedding of `count_actual_content` from `src/main.py`: per item, delete every
character that is not an ASCII letter, digit or whitespace, split the rest
on whitespace, and sum the word counts. -/
def count_actual_content (items : List Str) : Nat :=
  (items.map (fun item =>
    (splitWs (item.filter (fun c => isAlnumChar c || isSpaceChar c))).length)).sum

/-- Embedding of `format_items_as_string`: each item double-quoted,
comma-space joined. -/
def format_items_as_string (items : List Str) : Str :=
  joinSep ", ".toList (items.map (fun item => "\"".toList ++ item ++ "\"".toList))

/-- Embedding of `format_as_list`. -/
def format_as_list (items : List Str) : Str :=
  "[".toList ++ format_items_as_string items ++ "]".toList

/-- Embedding of `format_as_tuple`. -/
def format_as_tuple (items : List Str) : Str :=
  "(".toList ++ format_items_as_string items ++ ")".toList

/-- The `first_word` loop body of `format_as_dict`: key is the first word,
value the remaining words space-joined, or the whole item when it has at
most one word. -/
def first_word_entry (item : Str) : Str :=
  match splitWs item with
  | [] => "\"".toList ++ item ++ "\": \"".toList ++ item ++ "\"".toList
  | w :: ws =>
    "\"".toList ++ w ++ "\": \"".toList ++
      (if ws = [] then item else joinSep " ".toList ws) ++ "\"".toList

/-- The `dict_entries` lists built per key-type branch inside
`format_as_dict`; `Option.none` when the source returns `None` (key type
`none`, `user_defined` with an empty stripped prefix, or the unreachable
fallback). -/
def dict_entries (key_type : DictKeyStrategy) (prefixStr : Str)
    (items : List Str) : Option (List Str) :=
  match key_type with
  | .none => Option.none
  | .index =>
    Option.some (items.enum.map (fun (i, item) =>
      "\"".toList ++ (Nat.repr i).toList ++ "\": \"".toList ++ item ++ "\"".toList))
  | .auto =>
    Option.some (items.enum.map (fun (i, item) =>
      "\"item_".toList ++ (Nat.repr (i + 1)).toList ++ "\": \"".toList ++
        item ++ "\"".toList))
  | .user_defined =>
    let user_pre := stripChars prefixStr
    if user_pre = [] then Option.none
    else
      Option.some (items.enum.map (fun (i, item) =>
        "\"".toList ++ user_pre ++ "_".toList ++ (Nat.repr (i + 1)).toList ++
          "\": \"".toList ++ item ++ "\"".toList))
  | .first_word => Option.some (items.map first_word_entry)

/-- Embedding of `format_as_dict` from `src/main.py`: wrap the entries in curly braces;
`Option.none` exactly when the source returns `None` (which the caller
then treats as "use separator formatting"). -/
def format_as_dict (key_type : DictKeyStrategy) (prefixStr : Str)
    (items : List Str) : Option Str :=
  (dict_entries key_type prefixStr items).map
    (fun es => "\x7b".toList ++ joinSep ", ".toList es ++ "\x7d".toList)

/-- Embedding of `format_with_separator_style` from `src/main.py`: the separator-style
join applies only when the format type is `none` and a manual separator is
selected; otherwise `None`. -/
def format_with_separator_style (sep_type : SeparatorChoice) (items : List Str)
    (format_type : FormatType) : Option Str :=
  if sep_type = .comma ∧ format_type = .none then
    Option.some (joinSep ", ".toList items)
  else if sep_type = .newline ∧ format_type = .none then
    Option.some (joinSep "\n".toList items)
  else if sep_type = .space ∧ format_type = .none then
    Option.some (joinSep " ".toList items)
  else Option.none

/-- Embedding of `process_string` from `src/main.py`.  The raw text is
stripped on read, as in the source; the two early-return
warnings become errors; a successful run returns the string written to the
output area. -/
def process_string (sep_type : SeparatorChoice) (format_type : FormatType)
    (key_type : DictKeyStrategy) (prefixStr : Str) (raw : Str) :
    Except ProcessError Str :=
  let input_string := stripChars raw
  if input_string = [] then Except.error ProcessError.EmptyInput
  else
    let items := clean_and_split_string sep_type input_string
    if items = [] then Except.error ProcessError.NoItemsFound
    else
      let content_count := count_actual_content items
      let output := "Item count: ".toList ++ (Nat.repr content_count).toList ++
        "\n\n".toList
      match format_with_separator_style sep_type items format_type with
      | Option.some special_format => Except.ok (output ++ special_format)
      | Option.none =>
        match format_type with
        | .list => Except.ok (output ++ format_as_list items)
        | .dict =>
          match format_as_dict key_type prefixStr items with
          | Option.some dict_result => Except.ok (output ++ dict_result)
          | Option.none =>
            match format_with_separator_style sep_type items FormatType.none with
            | Option.some separator_format => Except.ok (output ++ separator_format)
            | Option.none => Except.ok output
        | .tuple => Except.ok (output ++ format_as_tuple items)
        | .none => Except.ok output

/-! ## Lemmas about whitespace splitting -/

/-- Unfolding `splitWsAux` at a whitespace character: the pending word (if
any) is emitted and the scan restarts. -/
theorem splitWsAux_cons_space {c : Char} (h : isSpaceChar c = true)
    (rest acc : Str) :
    splitWsAux (c :: rest) acc =
      (if acc = [] then [] else [acc.reverse]) ++ splitWsAux rest [] := by
  by_cases ha : acc = [] <;> simp [splitWsAux, h, ha]

/-- Unfolding `splitWsAux` at a non-whitespace character. -/
theorem splitWsAux_cons_nonspace {c : Char} (h : isSpaceChar c = false)
    (rest acc : Str) :
    splitWsAux (c :: rest) acc = splitWsAux rest (c :: acc) := by
  simp [splitWsAux, h]

/-- Scanning a whitespace-free block just moves it into the accumulator. -/
theorem splitWsAux_append_word (w : Str) (hw : ∀ c ∈ w, isSpaceChar c = false)
    (l acc : Str) :
    splitWsAux (w ++ l) acc = splitWsAux l (w.reverse ++ acc) := by
  induction w generalizing acc with
  | nil => simp
  | cons c w ih =>
    rw [List.cons_append, splitWsAux_cons_nonspace (hw c (List.mem_cons_self c w)),
      ih (fun d hd => hw d (List.mem_cons_of_mem c hd))]
    simp

/-- A non-empty whitespace-free string is a single word. -/
theorem splitWs_word (w : Str) (hw : ∀ c ∈ w, isSpaceChar c = false)
    (hne : w ≠ []) : splitWs w = [w] := by
  have h := splitWsAux_append_word w hw [] []
  simp only [List.append_nil] at h
  simp only [splitWs, h, splitWsAux]
  simp [hne]

/-- Every word produced by `splitWsAux` is non-empty and whitespace-free,
provided the accumulator is whitespace-free. -/
theorem splitWsAux_words (l : Str) :
    ∀ acc : Str, (∀ c ∈ acc, isSpaceChar c = false) →
      ∀ w ∈ splitWsAux l acc, w ≠ [] ∧ ∀ c ∈ w, isSpaceChar c = false := by
  induction l with
  | nil =>
    intro acc hacc w hw
    by_cases ha : acc = [] <;> simp [splitWsAux, ha] at hw
    subst hw
    constructor
    · simp [ha]
    · intro c hc
      exact hacc c (List.mem_reverse.mp hc)
  | cons c rest ih =>
    intro acc hacc w hw
    by_cases hc : isSpaceChar c = true
    · rw [splitWsAux_cons_space hc] at hw
      rcases List.mem_append.mp hw with hw | hw
      · by_cases ha : acc = [] <;> simp [ha] at hw
        subst hw
        exact ⟨by simp [ha], fun d hd => hacc d (List.mem_reverse.mp hd)⟩
      · exact ih [] (by simp) w hw
    · rw [splitWsAux_cons_nonspace (Bool.eq_false_iff.mpr hc)] at hw
      refine ih (c :: acc) ?_ w hw
      intro d hd
      rcases List.mem_cons.mp hd with hd | hd
      · subst hd; exact Bool.eq_false_iff.mpr hc
      · exact hacc d hd

/-- Every word of `splitWs` is non-empty and whitespace-free. -/
theorem splitWs_words (l : Str) :
    ∀ w ∈ splitWs l, w ≠ [] ∧ ∀ c ∈ w, isSpaceChar c = false :=
  splitWsAux_words l [] (by simp)

/-- Splitting a space-join of non-empty whitespace-free words recovers the
words. -/
theorem splitWs_joinSep (items : List Str)
    (hitems : ∀ it ∈ items, it ≠ [] ∧ ∀ c ∈ it, isSpaceChar c = false) :
    splitWs (joinSep [' '] items) = items := by
  induction items with
  | nil => rfl
  | cons x rest ih =>
    obtain ⟨hx, hxw⟩ := hitems x (List.mem_cons_self x rest)
    cases rest with
    | nil => exact splitWs_word x hxw hx
    | cons y rest' =>
      have hx' : splitWsAux (x ++ ' ' :: joinSep [' '] (y :: rest')) [] =
          splitWsAux (' ' :: joinSep [' '] (y :: rest')) x.reverse := by
        have h := splitWsAux_append_word x hxw (' ' :: joinSep [' '] (y :: rest')) []
        simpa using h
      have hxr : x.reverse ≠ [] := by simp [hx]
      calc splitWs (joinSep [' '] (x :: y :: rest'))
          = splitWsAux (' ' :: joinSep [' '] (y :: rest')) x.reverse := by
            simp only [joinSep, splitWs, List.append_assoc, List.singleton_append]
            exact hx'
        _ = [x] ++ splitWs (joinSep [' '] (y :: rest')) := by
            rw [splitWsAux_cons_space (by decide)]
            simp [hxr, splitWs]
        _ = x :: y :: rest' := by
            rw [ih (fun it hit => hitems it (List.mem_cons_of_mem x hit))]
            rfl

/-! ## Lemmas about whitespace collapsing and the slash-n marker -/

/-- Collapsing commutes with prepending a whitespace-free block. -/
theorem collapseWs_append_word (w : Str) (hw : ∀ c ∈ w, isSpaceChar c = false)
    (l : Str) : collapseWs (w ++ l) = w ++ collapseWs l := by
  induction w with
  | nil => rfl
  | cons c w ih =>
    have hc := hw c (List.mem_cons_self c w)
    have ih' := ih (fun d hd => hw d (List.mem_cons_of_mem c hd))
    match hwl : w ++ l with
    | [] =>
      obtain ⟨hw0, hl0⟩ := List.append_eq_nil.mp hwl
      subst hw0; subst hl0
      simp [collapseWs, hc]
    | d :: t =>
      rw [List.cons_append, hwl, collapseWs, hc]
      simp only [Bool.false_eq_true, if_false, ← hwl, ih', List.cons_append]

/-- A whitespace-free string is unchanged by collapsing. -/
theorem collapseWs_word (w : Str) (hw : ∀ c ∈ w, isSpaceChar c = false) :
    collapseWs w = w := by
  have h := collapseWs_append_word w hw []
  rw [List.append_nil] at h
  rw [h, show collapseWs [] = [] from rfl, List.append_nil]

/-- Collapsing a single whitespace character before a non-whitespace
character yields one space. -/
theorem collapseWs_sep {j d : Char} (hj : isSpaceChar j = true)
    (hd : isSpaceChar d = false) (t : Str) :
    collapseWs (j :: d :: t) = ' ' :: collapseWs (d :: t) := by
  simp [collapseWs, hj, hd]

/-- A `joinSep` of a non-empty first string starts with its first
character. -/
theorem joinSep_cons_head (sep : Str) (d : Char) (y : Str) (rest : List Str) :
    ∃ t, joinSep sep ((d :: y) :: rest) = d :: t := by
  cases rest with
  | nil => exact ⟨y, rfl⟩
  | cons z rest' => exact ⟨y ++ sep ++ joinSep sep (z :: rest'), by simp [joinSep]⟩

/-- Collapapsing a join by a single whitespace character of non-empty
whitespace-free words yields the space-join of the words. -/
theorem collapseWs_joinSep {j : Char} (hj : isSpaceChar j = true)
    (items : List Str)
    (hitems : ∀ it ∈ items, it ≠ [] ∧ ∀ c ∈ it, isSpaceChar c = false) :
    collapseWs (joinSep [j] items) = joinSep [' '] items := by
  induction items with
  | nil => rfl
  | cons x rest ih =>
    obtain ⟨hx, hxw⟩ := hitems x (List.mem_cons_self x rest)
    cases rest with
    | nil => exact collapseWs_word x hxw
    | cons y rest' =>
      obtain ⟨hy, hyw⟩ := hitems y (List.mem_cons_of_mem x (List.mem_cons_self y rest'))
      match hy0 : y with
      | d :: y' =>
        have hd : isSpaceChar d = false := hyw d (by simp [hy0])
        obtain ⟨t, ht⟩ := joinSep_cons_head [j] d y' rest'
        have ih' := ih (fun it hit => hitems it (List.mem_cons_of_mem x hit))
        calc collapseWs (joinSep [j] (x :: (d :: y') :: rest'))
            = collapseWs (x ++ (j :: joinSep [j] ((d :: y') :: rest'))) := by
              simp [joinSep]
          _ = x ++ collapseWs (j :: d :: t) := by
              rw [collapseWs_append_word x hxw, ht]
          _ = x ++ ' ' :: collapseWs (joinSep [j] ((d :: y') :: rest')) := by
              rw [collapseWs_sep hj hd, ht]
          _ = x ++ ' ' :: joinSep [' '] ((d :: y') :: rest') := by rw [ih']
          _ = joinSep [' '] (x :: (d :: y') :: rest') := by simp [joinSep]

/-- A string without the `/n` marker is unchanged by `replaceSlashN`. -/
theorem replaceSlashN_id (l : Str) (h : hasSlashN l = false) :
    replaceSlashN l = l := by
  induction l with
  | nil => rfl
  | cons c l ih =>
    cases l with
    | nil => rfl
    | cons d t =>
      simp only [hasSlashN, Bool.or_eq_false_iff, Bool.and_eq_false_iff] at h
      obtain ⟨hcd, ht⟩ := h
      have hne : ¬(c = '/' ∧ d = 'n') := by
        rcases hcd with hc | hd
        · exact fun hand => by simp [hand.1] at hc
        · exact fun hand => by simp [hand.2] at hd
      rw [replaceSlashN, if_neg hne, ih ht]

/-- Prepending a character other than `/` cannot create a `/n` marker. -/
theorem hasSlashN_cons {c : Char} (hc : c ≠ '/') (l : Str) :
    hasSlashN (c :: l) = hasSlashN l := by
  cases l with
  | nil => rfl
  | cons d t => simp [hasSlashN, hc]

/-- Appending after a marker-free block whose continuation does not start
with `n` cannot create a `/n` marker. -/
theorem hasSlashN_append (w : Str) (l : Str) (hw : hasSlashN w = false)
    (hl : ∀ t, l ≠ 'n' :: t) : hasSlashN (w ++ l) = hasSlashN l := by
  induction w with
  | nil => rfl
  | cons c w ih =>
    cases w with
    | nil =>
      by_cases hc : c = '/'
      · cases l with
        | nil => rfl
        | cons e t =>
          have he : e ≠ 'n' := fun h => hl t (by rw [h])
          simp [hasSlashN, he]
      · exact hasSlashN_cons hc l
    | cons d w' =>
      simp only [hasSlashN, Bool.or_eq_false_iff] at hw
      obtain ⟨hcd, ht⟩ := hw
      have ih' := ih ht
      rw [List.cons_append] at ih'
      calc hasSlashN ((c :: d :: w') ++ l)
          = ((decide (c = '/') && decide (d = 'n')) ||
              hasSlashN (d :: (w' ++ l))) := rfl
        _ = hasSlashN l := by rw [hcd, Bool.false_or, ih']

/-- Joining marker-free words with a separator character that is neither
`/` nor `n` yields a marker-free string. -/
theorem hasSlashN_joinSep {j : Char} (hj1 : j ≠ '/') (hj2 : j ≠ 'n')
    (items : List Str) (hitems : ∀ it ∈ items, hasSlashN it = false) :
    hasSlashN (joinSep [j] items) = false := by
  induction items with
  | nil => rfl
  | cons x rest ih =>
    cases rest with
    | nil => exact hitems x (List.mem_cons_self x [])
    | cons y rest' =>
      have hx := hitems x (List.mem_cons_self x (y :: rest'))
      have ih' := ih (fun it hit => hitems it (List.mem_cons_of_mem x hit))
      have hstep : joinSep [j] (x :: y :: rest') =
          x ++ (j :: joinSep [j] (y :: rest')) := by simp [joinSep]
      have hnotn : ∀ t, (j :: joinSep [j] (y :: rest')) ≠ 'n' :: t := by
        intro t h
        injection h with h1 _
        exact hj2 h1
      rw [hstep, hasSlashN_append x _ hx hnotn, hasSlashN_cons hj1, ih']

/-! ## Splitting is invariant under stripping -/

/-- Leading whitespace does not change the words. -/
theorem splitWs_dropWhile (l : Str) :
    splitWs (l.dropWhile isSpaceChar) = splitWs l := by
  induction l with
  | nil => rfl
  | cons c l ih =>
    by_cases hc : isSpaceChar c = true
    · rw [List.dropWhile_cons_of_pos hc, ih,
        show splitWs (c :: l) = splitWsAux (c :: l) [] from rfl,
        splitWsAux_cons_space hc]
      simp [splitWs]
    · rw [List.dropWhile_cons_of_neg (by simp [hc])]

/-- An all-whitespace string has no words. -/
theorem splitWsAux_spaces (t : Str) (ht : ∀ c ∈ t, isSpaceChar c = true) :
    splitWsAux t [] = [] := by
  induction t with
  | nil => rfl
  | cons c t ih =>
    rw [splitWsAux_cons_space (ht c (List.mem_cons_self c t))]
    simpa using ih (fun d hd => ht d (List.mem_cons_of_mem c hd))

/-- Trailing whitespace does not change the words. -/
theorem splitWsAux_append_spaces (t : Str) (ht : ∀ c ∈ t, isSpaceChar c = true)
    (l : Str) : ∀ acc : Str, splitWsAux (l ++ t) acc = splitWsAux l acc := by
  induction l with
  | nil =>
    intro acc
    cases t with
    | nil => rfl
    | cons s t' =>
      rw [List.nil_append, splitWsAux_cons_space (ht s (List.mem_cons_self s t')),
        splitWsAux_spaces t' (fun d hd => ht d (List.mem_cons_of_mem s hd))]
      simp [splitWsAux]
  | cons c l ih =>
    intro acc
    by_cases hc : isSpaceChar c = true
    · rw [List.cons_append, splitWsAux_cons_space hc, splitWsAux_cons_space hc,
        ih []]
    · rw [List.cons_append,
        splitWsAux_cons_nonspace (Bool.eq_false_iff.mpr hc),
        splitWsAux_cons_nonspace (Bool.eq_false_iff.mpr hc), ih]

/-- Stripping leading and trailing whitespace does not change the words. -/
theorem splitWs_stripChars (l : Str) : splitWs (stripChars l) = splitWs l := by
  have hdecomp : l.dropWhile isSpaceChar =
      stripChars l ++ ((l.dropWhile isSpaceChar).reverse.takeWhile isSpaceChar).reverse := by
    conv_lhs => rw [← List.reverse_reverse (l.dropWhile isSpaceChar),
      ← List.takeWhile_append_dropWhile (p := isSpaceChar)
        (l := (l.dropWhile isSpaceChar).reverse)]
    rw [List.reverse_append]
    rfl
  have htail : ∀ c ∈ ((l.dropWhile isSpaceChar).reverse.takeWhile isSpaceChar).reverse,
      isSpaceChar c = true := by
    intro c hc
    exact List.mem_takeWhile_imp (List.mem_reverse.mp hc)
  calc splitWs (stripChars l)
      = splitWs (stripChars l ++
          ((l.dropWhile isSpaceChar).reverse.takeWhile isSpaceChar).reverse) := by
        rw [splitWs, splitWs, splitWsAux_append_spaces _ htail]
    _ = splitWs (l.dropWhile isSpaceChar) := by rw [← hdecomp]
    _ = splitWs l := splitWs_dropWhile l

/-! ## The manual tokenizer branch in closed form -/

/-- The post-processing of the manual branch of `clean_and_split_string` is
the identity: the words of `splitWs` are already stripped and non-empty. -/
theorem manual_postprocess (l : Str) :
    ((splitWs l).map stripChars).filter (fun x => !x.isEmpty) = splitWs l := by
  have hmap : (splitWs l).map stripChars = splitWs l := by
    have : ∀ w ∈ splitWs l, stripChars w = w := by
      intro w hw
      obtain ⟨-, hwsp⟩ := splitWs_words l w hw
      have hdw : ∀ m : Str, (∀ c ∈ m, isSpaceChar c = false) →
          m.dropWhile isSpaceChar = m := by
        intro m hm
        cases m with
        | nil => rfl
        | cons c m' =>
          rw [List.dropWhile_cons_of_neg (by simp [hm c (List.mem_cons_self c m')])]
      rw [stripChars, hdw w hwsp,
        hdw w.reverse (fun c hc => hwsp c (List.mem_reverse.mp hc)),
        List.reverse_reverse]
    calc (splitWs l).map stripChars = (splitWs l).map id :=
          List.map_congr_left this
      _ = splitWs l := List.map_id (splitWs l)
  rw [hmap]
  rw [List.filter_eq_self]
  intro w hw
  obtain ⟨hwne, -⟩ := splitWs_words l w hw
  simpa [List.isEmpty_eq_false] using hwne

/-- For every manual separator choice the tokenizer splits the cleaned
text on whitespace. -/
theorem clean_and_split_manual (sep_type : SeparatorChoice)
    (hsep : sep_type ≠ .auto) (s : Str) :
    clean_and_split_string sep_type s = splitWs (cleanString s) := by
  cases sep_type with
  | auto => exact absurd rfl hsep
  | space => exact manual_postprocess (cleanString s)
  | comma => exact manual_postprocess (cleanString s)
  | newline => exact manual_postprocess (cleanString s)

/-- Tokenizing, with a manual separator, the join of non-empty
whitespace-free marker-free items by a single whitespace separator
character recovers the items. -/
theorem tokenize_joinSep {j : Char} (hj : isSpaceChar j = true)
    (hj1 : j ≠ '/') (hj2 : j ≠ 'n') (items : List Str)
    (hitems : ∀ it ∈ items, it ≠ [] ∧ (∀ c ∈ it, isSpaceChar c = false) ∧
      hasSlashN it = false) :
    splitWs (cleanString (joinSep [j] items)) = items := by
  have h1 : replaceSlashN (joinSep [j] items) = joinSep [j] items :=
    replaceSlashN_id _ (hasSlashN_joinSep hj1 hj2 items
      (fun it hit => (hitems it hit).2.2))
  have h2 : collapseWs (joinSep [j] items) = joinSep [' '] items :=
    collapseWs_joinSep hj items
      (fun it hit => ⟨(hitems it hit).1, (hitems it hit).2.1⟩)
  rw [cleanString, h1, splitWs_stripChars, h2,
    splitWs_joinSep items (fun it hit => ⟨(hitems it hit).1, (hitems it hit).2.1⟩)]

/-! ## Detection, newline-freeness, dictionary-entry indexing -/

/-- Closed form of `auto_detect_separator`: the empty-input guard
coincides with the final default. -/
theorem auto_detect_eq (l : Str) :
    auto_detect_separator l =
      if 0 < l.count ',' ∧ l.count '\n' ≤ l.count ',' then ','
      else if 0 < l.count '\n' then '\n' else ' ' := by
  by_cases h : l = []
  · subst h; simp [auto_detect_separator]
  · simp only [auto_detect_separator, if_neg h]

/-- Collapsed text never contains a newline: every whitespace run becomes
a plain space. -/
theorem newline_not_mem_collapseWs (l : Str) : '\n' ∉ collapseWs l := by
  induction l with
  | nil => simp [collapseWs]
  | cons c l ih =>
    cases l with
    | nil =>
      by_cases hc : isSpaceChar c = true
      · simp [collapseWs, hc]
      · have hcn : c ≠ '\n' := by
          intro h0; subst h0; exact hc (by decide)
        simp only [collapseWs, hc, Bool.false_eq_true, if_false,
          List.mem_singleton]
        exact fun h => hcn h.symm
    | cons d t =>
      by_cases hc : isSpaceChar c = true
      · by_cases hd : isSpaceChar d = true
        · simpa [collapseWs, hc, hd] using ih
        · rw [collapseWs_sep hc (Bool.eq_false_iff.mpr hd)]
          simpa using ih
      · have hcn : c ≠ '\n' := by
          intro h0; subst h0; exact hc (by decide)
        simp only [collapseWs, Bool.eq_false_iff.mpr hc, Bool.false_eq_true,
          if_false, List.mem_cons]
        rintro (h | h)
        · exact hcn h.symm
        · exact ih h

/-- Membership is preserved by `dropWhile`. -/
theorem mem_dropWhile {a : Char} {p : Char → Bool} :
    ∀ {l : Str}, a ∈ l.dropWhile p → a ∈ l := by
  intro l
  induction l with
  | nil => intro h; exact h
  | cons c l ih =>
    intro h
    by_cases hc : p c = true
    · rw [List.dropWhile_cons_of_pos hc] at h
      exact List.mem_cons_of_mem c (ih h)
    · rwa [List.dropWhile_cons_of_neg (by simp [hc])] at h

/-- Membership is preserved by `stripChars`. -/
theorem mem_stripChars {a : Char} {l : Str} (h : a ∈ stripChars l) : a ∈ l := by
  rw [stripChars, List.mem_reverse] at h
  have h1 := mem_dropWhile h
  rw [List.mem_reverse] at h1
  exact mem_dropWhile h1

/-- Indexing a map over `enum`. -/
theorem enum_map_getElem (f : Nat × Str → Str) (l : List Str) (i : Nat)
    (it : Str) (h : l[i]? = some it) :
    (l.enum.map f)[i]? = some (f (i, it)) := by
  rw [List.getElem?_map, List.getElem?_enum, h]
  rfl

/-- A three-part header followed by anything is the header followed by
some body. -/
theorem header_body_exists (A B C X out : Str) (h : (A ++ B ++ C) ++ X = out) :
    ∃ body, out = A ++ B ++ C ++ body :=
  ⟨X, by rw [← h, List.append_assoc, List.append_assoc]⟩

/-- A bare three-part header is the header followed by the empty body. -/
theorem header_body_exists_nil (A B C out : Str) (h : A ++ B ++ C = out) :
    ∃ body, out = A ++ B ++ C ++ body :=
  ⟨[], by rw [← h, List.append_nil]⟩

/-! ## Claim theorems -/

/-- C1: contrary to the documented MissingPrefix abort, the source falls
through when the UserDefined prefix is empty: `format_as_dict` returns
`None` after its warning, `process_string` takes the branch meant for the
`none` key strategy, and the run succeeds, emitting the item-count header
and the separator-style body (here the comma join of the items) in place
of any previous output. -/
theorem missing_prefix_produces_output :
    process_string .comma .dict .user_defined [] ("a b".toList) =
      Except.ok ("Item count: 2\n\na, b".toList) := by rfl

/-- C2 (amended): with separatorChoice Auto and formatType None the body
is empty — a successful run returns exactly the item-count header and the
blank line, whatever the detected separator was. -/
theorem auto_none_header_only (key_type : DictKeyStrategy)
    (prefixStr raw out : Str)
    (h : process_string .auto .none key_type prefixStr raw = Except.ok out) :
    out = "Item count: ".toList ++
      (Nat.repr (count_actual_content
        (clean_and_split_string .auto (stripChars raw)))).toList ++
      "\n\n".toList := by
  simp only [process_string] at h
  split at h
  · exact Except.noConfusion h
  split at h
  · exact Except.noConfusion h
  have hf : format_with_separator_style .auto
      (clean_and_split_string .auto (stripChars raw)) FormatType.none =
      Option.none := rfl
  rw [hf] at h
  injection h with h
  rw [← h, List.append_assoc]

/-- C2 witness: the header-only law evaluated on the spec's Scenario 2
input. -/
theorem auto_none_header_only_witness :
    ("Item count: 3\n\n".toList : Str) = "Item count: ".toList ++
      (Nat.repr (count_actual_content
        (clean_and_split_string .auto (stripChars ("a,b,c".toList))))).toList ++
      "\n\n".toList :=
  auto_none_header_only .none [] ("a,b,c".toList) ("Item count: 3\n\n".toList) rfl

/-- C2 counterexample: on input "a,b,c" with Auto and format None the
output is only the header — not the comma-joined body the claim
requires. -/
theorem auto_none_scenario2_cex :
    process_string .auto .none .none [] ("a,b,c".toList) =
      Except.ok ("Item count: 3\n\n".toList) ∧
    ("Item count: 3\n\n".toList : Str) ≠
      "Item count: 3\n\n".toList ++ "a, b, c".toList :=
  ⟨by rfl, by decide⟩

/-- C3: for every raw input, each manual separator choice (Space, Comma,
Newline) tokenizes by whitespace-splitting the normalized text, so all
three produce the same item sequence. -/
theorem manual_choices_same_split (s : Str) :
    clean_and_split_string .space s = splitWs (cleanString s) ∧
    clean_and_split_string .comma s = splitWs (cleanString s) ∧
    clean_and_split_string .newline s = splitWs (cleanString s) :=
  ⟨clean_and_split_manual .space (by decide) s,
   clean_and_split_manual .comma (by decide) s,
   clean_and_split_manual .newline (by decide) s⟩

/-- C4 (amended): for the Space and Newline manual separators, joining
non-empty, whitespace-free, `/n`-marker-free items with the separator's
join style and re-tokenizing recovers the items.  (For Comma the law
fails: the inserted commas stay attached to the items.) -/
theorem roundtrip_space_newline (items : List Str) (js jn : Str)
    (hne : items ≠ [])
    (hitems : ∀ it ∈ items, it ≠ [] ∧ (∀ c ∈ it, isSpaceChar c = false) ∧
      hasSlashN it = false)
    (hjs : format_with_separator_style .space items .none = Option.some js)
    (hjn : format_with_separator_style .newline items .none = Option.some jn) :
    clean_and_split_string .space js = items ∧
    clean_and_split_string .newline jn = items := by
  have hs : format_with_separator_style .space items FormatType.none =
      Option.some (joinSep [' '] items) := rfl
  rw [hs] at hjs
  injection hjs with hjs
  have hn : format_with_separator_style .newline items FormatType.none =
      Option.some (joinSep ['\n'] items) := rfl
  rw [hn] at hjn
  injection hjn with hjn
  subst hjs
  subst hjn
  exact ⟨by rw [clean_and_split_manual .space (by decide),
          tokenize_joinSep (by decide) (by decide) (by decide) items hitems],
        by rw [clean_and_split_manual .newline (by decide),
          tokenize_joinSep (by decide) (by decide) (by decide) items hitems]⟩

/-- C4 witness: the round-trip evaluated on the two items "ab", "cd". -/
theorem roundtrip_space_newline_witness :
    clean_and_split_string .space ("ab cd".toList) =
      ["ab".toList, "cd".toList] ∧
    clean_and_split_string .newline ("ab\ncd".toList) =
      ["ab".toList, "cd".toList] :=
  roundtrip_space_newline ["ab".toList, "cd".toList] ("ab cd".toList)
    ("ab\ncd".toList) (by decide) (by decide) (by rfl) (by rfl)

/-- C4 counterexample: for the Comma separator the claimed round trip
fails already on the items "a", "b": the join is "a, b", but manual
re-tokenization whitespace-splits it into "a," and "b". -/
theorem roundtrip_comma_cex :
    format_with_separator_style .comma ["a".toList, "b".toList] .none =
      Option.some ("a, b".toList) ∧
    clean_and_split_string .comma ("a, b".toList) =
      ["a,".toList, "b".toList] ∧
    (["a,".toList, "b".toList] : List Str) ≠ ["a".toList, "b".toList] :=
  ⟨by rfl, by rfl, by decide⟩

/-- C5: the detection rule — a present comma at least as frequent as
newlines wins, else a present newline, else space (also for empty
text). -/
theorem auto_detect_separator_spec (l : Str) :
    auto_detect_separator l =
      if 0 < l.count ',' ∧ l.count '\n' ≤ l.count ',' then ','
      else if 0 < l.count '\n' then '\n' else ' ' :=
  auto_detect_eq l

/-- C9: processing refuses empty/whitespace-only raw input with
EmptyInput, and refuses input whose tokenization is empty with
NoItemsFound; in both cases it returns an error, so no output is
produced. -/
theorem process_refusals (sep_type : SeparatorChoice)
    (format_type : FormatType) (key_type : DictKeyStrategy)
    (prefixStr raw : Str) :
    (stripChars raw = [] →
      process_string sep_type format_type key_type prefixStr raw =
        Except.error ProcessError.EmptyInput) ∧
    (stripChars raw ≠ [] →
      clean_and_split_string sep_type (stripChars raw) = [] →
      process_string sep_type format_type key_type prefixStr raw =
        Except.error ProcessError.NoItemsFound) := by
  constructor
  · intro h1
    simp only [process_string]
    rw [if_pos h1]
  · intro h1 h2
    simp only [process_string]
    rw [if_neg h1, if_pos h2]

/-- C9 witness: whitespace-only input refuses with EmptyInput; the input
"/n", which normalizes to nothing, refuses with NoItemsFound. -/
theorem process_refusals_witness :
    process_string .auto .none .none [] ("   ".toList) =
      Except.error ProcessError.EmptyInput ∧
    process_string .auto .none .none [] ("/n".toList) =
      Except.error ProcessError.NoItemsFound :=
  ⟨(process_refusals .auto .none .none [] ("   ".toList)).1 (by decide),
   (process_refusals .auto .none .none [] ("/n".toList)).2 (by decide) (by decide)⟩

/-- C10: with Auto selected, the separator used for splitting is never a
newline — the cleaned text contains no newline at all, so detection
returns comma or space. -/
theorem auto_separator_never_newline (raw : Str) :
    (cleanString raw).count '\n' = 0 ∧
    (auto_detect_separator (cleanString raw) = ',' ∨
     auto_detect_separator (cleanString raw) = ' ') := by
  have h0 : (cleanString raw).count '\n' = 0 := by
    rw [List.count_eq_zero]
    intro hmem
    exact newline_not_mem_collapseWs _ (mem_stripChars hmem)
  refine ⟨h0, ?_⟩
  rw [auto_detect_eq, h0]
  by_cases hc : 0 < (cleanString raw).count ','
  · left
    rw [if_pos ⟨hc, Nat.zero_le _⟩]
  · right
    rw [if_neg (fun h => hc h.1), if_neg (by omega)]

/-- C6: every successful `process_string` run returns the item-count
header — "Item count: " followed by the (non-negative) content count and
a blank line — before any body; unsuccessful runs return one of the
defined error kinds, never a silent empty success. -/
theorem process_output_header (sep_type : SeparatorChoice)
    (format_type : FormatType) (key_type : DictKeyStrategy)
    (prefixStr raw out : Str)
    (h : process_string sep_type format_type key_type prefixStr raw =
      Except.ok out) :
    ∃ body, out = "Item count: ".toList ++
      (Nat.repr (count_actual_content
        (clean_and_split_string sep_type (stripChars raw)))).toList ++
      "\n\n".toList ++ body := by
  simp only [process_string] at h
  repeat' split at h
  all_goals first
    | exact Except.noConfusion h
    | (injection h with h
       exact header_body_exists _ _ _ _ _ h)
    | (injection h with h
       exact header_body_exists_nil _ _ _ _ h)

/-- C6 witness: the header law evaluated on Scenario 1. -/
theorem process_output_header_witness :
    ∃ body, ("Item count: 3\n\n[\"hello\", \"world\", \"test\"]".toList : Str) =
      "Item count: ".toList ++
      (Nat.repr (count_actual_content
        (clean_and_split_string .auto (stripChars ("hello world test".toList))))).toList ++
      "\n\n".toList ++ body :=
  process_output_header .auto .list .none [] ("hello world test".toList)
    ("Item count: 3\n\n[\"hello\", \"world\", \"test\"]".toList) (by rfl)

/-- C7: the Index, AutoGenerated, FirstWord and (with a non-empty
stripped prefix) UserDefined strategies each produce exactly one entry
per item, the i-th entry built from the i-th item; the None strategy
yields no entries. -/
theorem dict_entries_spec (items : List Str) (prefixStr : Str)
    (hp : stripChars prefixStr ≠ []) :
    (∃ es, dict_entries .index prefixStr items = Option.some es ∧
      es.length = items.length ∧
      ∀ (i : Nat) (it : Str), items[i]? = some it → es[i]? =
        some ("\"".toList ++ (Nat.repr i).toList ++ "\": \"".toList ++
          it ++ "\"".toList)) ∧
    (∃ es, dict_entries .auto prefixStr items = Option.some es ∧
      es.length = items.length ∧
      ∀ (i : Nat) (it : Str), items[i]? = some it → es[i]? =
        some ("\"item_".toList ++ (Nat.repr (i + 1)).toList ++ "\": \"".toList ++
          it ++ "\"".toList)) ∧
    (∃ es, dict_entries .first_word prefixStr items = Option.some es ∧
      es.length = items.length ∧
      ∀ (i : Nat) (it : Str), items[i]? = some it → es[i]? = some (first_word_entry it)) ∧
    (∃ es, dict_entries .user_defined prefixStr items = Option.some es ∧
      es.length = items.length ∧
      ∀ (i : Nat) (it : Str), items[i]? = some it → es[i]? =
        some ("\"".toList ++ stripChars prefixStr ++ "_".toList ++
          (Nat.repr (i + 1)).toList ++ "\": \"".toList ++ it ++ "\"".toList)) ∧
    dict_entries .none prefixStr items = Option.none := by
  have hud : dict_entries .user_defined prefixStr items =
      Option.some (items.enum.map (fun (i, item) =>
        "\"".toList ++ stripChars prefixStr ++ "_".toList ++
          (Nat.repr (i + 1)).toList ++ "\": \"".toList ++ item ++
          "\"".toList)) := by
    simp only [dict_entries]
    rw [if_neg hp]
  refine ⟨⟨_, rfl, ?_, ?_⟩, ⟨_, rfl, ?_, ?_⟩, ⟨_, rfl, ?_, ?_⟩,
    ⟨_, hud, ?_, ?_⟩, rfl⟩
  · simp [List.length_map, List.enum_length]
  · intro i it hit
    exact enum_map_getElem _ items i it hit
  · simp [List.length_map, List.enum_length]
  · intro i it hit
    exact enum_map_getElem _ items i it hit
  · simp [List.length_map]
  · intro i it hit
    rw [List.getElem?_map, hit]
    rfl
  · simp [List.length_map, List.enum_length]
  · intro i it hit
    exact enum_map_getElem _ items i it hit

/-- C7 witness: the entry laws evaluated at two items and prefix "k". -/
theorem dict_entries_spec_witness :
    (∃ es, dict_entries .index ("k".toList) ["x".toList, "y".toList] =
        Option.some es ∧ es.length = (["x".toList, "y".toList] : List Str).length ∧
      ∀ (i : Nat) (it : Str), (["x".toList, "y".toList] : List Str)[i]? = some it → es[i]? =
        some ("\"".toList ++ (Nat.repr i).toList ++ "\": \"".toList ++
          it ++ "\"".toList)) ∧
    (∃ es, dict_entries .auto ("k".toList) ["x".toList, "y".toList] =
        Option.some es ∧ es.length = (["x".toList, "y".toList] : List Str).length ∧
      ∀ (i : Nat) (it : Str), (["x".toList, "y".toList] : List Str)[i]? = some it → es[i]? =
        some ("\"item_".toList ++ (Nat.repr (i + 1)).toList ++ "\": \"".toList ++
          it ++ "\"".toList)) ∧
    (∃ es, dict_entries .first_word ("k".toList) ["x".toList, "y".toList] =
        Option.some es ∧ es.length = (["x".toList, "y".toList] : List Str).length ∧
      ∀ (i : Nat) (it : Str), (["x".toList, "y".toList] : List Str)[i]? = some it → es[i]? =
        some (first_word_entry it)) ∧
    (∃ es, dict_entries .user_defined ("k".toList) ["x".toList, "y".toList] =
        Option.some es ∧ es.length = (["x".toList, "y".toList] : List Str).length ∧
      ∀ (i : Nat) (it : Str), (["x".toList, "y".toList] : List Str)[i]? = some it → es[i]? =
        some ("\"".toList ++ stripChars ("k".toList) ++ "_".toList ++
          (Nat.repr (i + 1)).toList ++ "\": \"".toList ++ it ++ "\"".toList)) ∧
    dict_entries .none ("k".toList) ["x".toList, "y".toList] = Option.none :=
  dict_entries_spec ["x".toList, "y".toList] ("k".toList) (by decide)

/-- C8: FirstWord entries — for an item whose split has first word w and
remaining words ws, the key is w and the value is the space-join of ws,
or the whole item when it is the only word; in particular a whitespace-
free item yields key = value = item. -/
theorem first_word_entry_spec (item w : Str) (ws : List Str)
    (h : splitWs item = w :: ws) :
    first_word_entry item = "\"".toList ++ w ++ "\": \"".toList ++
      (if ws = [] then item else joinSep " ".toList ws) ++ "\"".toList ∧
    ((∀ c ∈ item, isSpaceChar c = false) →
      first_word_entry item = "\"".toList ++ item ++ "\": \"".toList ++
        item ++ "\"".toList) := by
  constructor
  · simp only [first_word_entry, h]
  · intro hw
    have hne : item ≠ [] := by
      intro h0
      subst h0
      exact List.noConfusion (show ([] : List Str) = w :: ws from h)
    have hsw : splitWs item = [item] := splitWs_word item hw hne
    simp [first_word_entry, hsw]

/-- C8 witness: the FirstWord law evaluated on the two-word item "a b"
and on the whitespace-free item "BIS_fnc". -/
theorem first_word_entry_spec_witness :
    (first_word_entry ("a b".toList) = "\"".toList ++ "a".toList ++
      "\": \"".toList ++
      (if (["b".toList] : List Str) = [] then "a b".toList
        else joinSep " ".toList ["b".toList]) ++ "\"".toList) ∧
    ((∀ c ∈ "BIS_fnc".toList, isSpaceChar c = false) →
      first_word_entry ("BIS_fnc".toList) = "\"".toList ++ "BIS_fnc".toList ++
        "\": \"".toList ++ "BIS_fnc".toList ++ "\"".toList) :=
  ⟨(first_word_entry_spec ("a b".toList) ("a".toList) ["b".toList] (by rfl)).1,
   (first_word_entry_spec ("BIS_fnc".toList) ("BIS_fnc".toList) [] (by rfl)).2⟩

end FormX
